import Mathlib

/-!
Shallow embedding of the Tocsic Markdown table-of-contents generator
(src/src/tocsic.py).  A document is modelled as a list of lines, each line a
`List Char` without its trailing line terminator; every branch of the Python
scanner consumes exactly one line per loop iteration, and no appended line can
merge with a following one, so this convention is faithful.  Text is modelled
at the ASCII level (the spec promises no Unicode-aware transliteration beyond
case folding, and every behaviour the claims exercise is ASCII).  A raised
`TocsicException` carrying a line number is modelled as `Except.error n`:
in `add_toc` the exception propagates before `generate_md` runs, so an
`.error` result means no output file is written.
-/

/-- The whitespace characters of Python `str.strip()` and of the regex
class `\s` (space, tab, newline, carriage return, vertical tab, form feed). -/
def pyIsSpace (c : Char) : Bool :=
  c == ' ' || c == '\t' || c == '\n' || c == '\r' || c == '\x0b' || c == '\x0c'

/-- Python `str.strip()` with no argument: drop whitespace from both ends. -/
def pyStrip (l : List Char) : List Char :=
  ((l.dropWhile pyIsSpace).reverse.dropWhile pyIsSpace).reverse

/-- Python `str.strip('_')`: drop underscores from both ends
(tocsic.py line 162). -/
def stripUnd (l : List Char) : List Char :=
  ((l.dropWhile (fun c => c == '_')).reverse.dropWhile (fun c => c == '_')).reverse

/-- A line is blank when `line.strip()` is empty. -/
def isBlank (l : List Char) : Bool := (pyStrip l).isEmpty

/-- Python `line.startswith(p)` on our line model. -/
def sw (p : String) (l : List Char) : Bool := p.toList.isPrefixOf l

/-- Python `str.isalnum` restricted to ASCII (tocsic.py line 163). -/
def isAlnumAscii (c : Char) : Bool := c.isAlpha || c.isDigit

/-- The filter kept by `header_to_link`: alphanumeric or underscore
(tocsic.py line 163). -/
def keepChar (c : Char) : Bool := isAlnumAscii c || c == '_'

/-- Characters matched by the regex class `[\w-]` (ASCII model):
word characters or hyphen (tocsic.py line 14). -/
def wordHyphenChar (c : Char) : Bool := isAlnumAscii c || c == '_' || c == '-'

/-- Python `str.lower` restricted to ASCII (tocsic.py line 162). -/
def pyLowerChar (c : Char) : Char :=
  if 65 ≤ c.toNat ∧ c.toNat ≤ 90 then Char.ofNat (c.toNat + 32) else c

/-- The character class of `to_underscore_regex` (tocsic.py line 159),
written in the source as space, hyphen, slash inside brackets.  In a regex
that bracket expression is a character range, from space (0x20) to slash
(0x2F): it contains space and all the punctuation characters up to and
including slash, not merely space, hyphen and slash. -/
def inDashClass (c : Char) : Bool := decide (32 ≤ c.toNat ∧ c.toNat ≤ 47)

/-- `re.sub` of a one-or-more character-class pattern, processed run-wise:
the flag records whether the previous character belonged to the class, so
only the first character of each maximal run emits the underscore and the
rest of the run is skipped. -/
def runReplaceAux (p : Char → Bool) : Bool → List Char → List Char
  | _, [] => []
  | inRun, c :: cs =>
    if p c then
      if inRun then runReplaceAux p true cs else '_' :: runReplaceAux p true cs
    else c :: runReplaceAux p false cs

/-- `re.sub(to_underscore_regex, '_', s)`: replace every maximal run of
`inDashClass` characters by a single underscore (tocsic.py line 162). -/
def subUnderscore (l : List Char) : List Char := runReplaceAux inDashClass false l

/-- Decimal digit character, for Python `str(n)` (tocsic.py line 171). -/
def digitChar (n : Nat) : Char :=
  match n with
  | 0 => '0' | 1 => '1' | 2 => '2' | 3 => '3' | 4 => '4'
  | 5 => '5' | 6 => '6' | 7 => '7' | 8 => '8' | _ => '9'

/-- Helper for `natChars`: accumulate decimal digits most significant first.
The first argument is fuel, structurally decreasing; `natChars` supplies
enough of it that the fuel-exhausted arm is never taken. -/
def natCharsAux : Nat → Nat → List Char → List Char
  | 0, n, acc => digitChar n :: acc
  | fuel + 1, n, acc =>
    if n < 10 then digitChar n :: acc
    else natCharsAux fuel (n / 10) (digitChar (n % 10) :: acc)

/-- Python `str(n)` for a natural number: its decimal digits. -/
def natChars (n : Nat) : List Char := natCharsAux n n []

/-- Dictionary of anchor candidates to occurrence counts (`header_dict`,
tocsic.py line 36), modelled as an association list. -/
abbrev Dict := List (List Char × Nat)

/-- Python `dict.get(k, 0)`. -/
def dictGet (d : Dict) (k : List Char) : Nat :=
  match d.find? (fun p => p.1 == k) with
  | some p => p.2
  | none => 0

/-- Python `dict[k] = v` (update in place or append). -/
def dictSet (d : Dict) (k : List Char) (v : Nat) : Dict :=
  match d with
  | [] => [(k, v)]
  | p :: ps => if p.1 == k then (k, v) :: ps else p :: dictSet ps k v

/-- The slug computed inside `header_to_link` before de-duplication
(tocsic.py lines 162-163): lower-case, substitute maximal `inDashClass` runs
by `_`, strip `_` from both ends, then keep only alphanumerics and
underscores. -/
def linkOf (t : List Char) : List Char :=
  (stripUnd (subUnderscore (t.map pyLowerChar))).filter keepChar

/-- `Tocsic.header_to_link` (tocsic.py lines 159-171): derive the slug, then
de-duplicate against `header_dict`; a candidate already seen `n` times gets
the suffix `_n` and the count is incremented. Returns the link and the
updated dictionary. -/
def header_to_link (dict : Dict) (t : List Char) : List Char × Dict :=
  let link := linkOf t
  let cnt := dictGet dict link
  if cnt = 0 then (link, dictSet dict link 1)
  else (link ++ '_' :: natChars cnt, dictSet dict link (cnt + 1))

/-- Result of `re.search(Tocsic.head_regex, line)` for a line that begins with
`'#'` (the only lines `make_toc_entry` receives): the pattern is
`(#+)\s*(\S+(?:\s+\S+)*)`.  With `k` leading hashes: if anything after them is
not whitespace the match takes all `k` hashes and the title is the rest with
surrounding whitespace stripped (internal whitespace kept verbatim); if the
rest is all whitespace, the greedy `#+` backtracks one step, so for `k ≥ 2`
the match yields `k - 1` hashes and the title `"#"`; for `k = 1` there is no
match anywhere in the line.  Returns (length of group 1, group 2). -/
def headSearch (l : List Char) : Option (Nat × List Char) :=
  let k := (l.takeWhile (fun c => c == '#')).length
  let rest := l.dropWhile (fun c => c == '#')
  if k = 0 then none
  else if rest.any (fun c => !(pyIsSpace c)) then some (k, pyStrip rest)
  else if 2 ≤ k then some (k - 1, ['#'])
  else none

/-- Attempt to match `<a +id="([\w-]+)"></a>` (the suffix of `keyword_regex`
after its `\s*`) at the head of `l`; on success return the captured group.
The quantifiers need no backtracking here: ` +` maximal must be followed by
`id="`, and the maximal `[\w-]+` run must be followed by `"></a>`. -/
def matchKwAt (l : List Char) : Option (List Char) :=
  match l with
  | c1 :: c2 :: rest =>
    if c1 = '<' ∧ c2 = 'a' then
      let sp := rest.takeWhile (fun c => c == ' ')
      let r2 := rest.dropWhile (fun c => c == ' ')
      if sp.isEmpty then none
      else if ("id=\"".toList).isPrefixOf r2 then
        let r3 := r2.drop 4
        let w := r3.takeWhile wordHyphenChar
        if w.isEmpty then none
        else if ("\"></a>".toList).isPrefixOf (r3.dropWhile wordHyphenChar) then some w
        else none
      else none
    else none
  | _ => none

/-- `re.search(Tocsic.keyword_regex, line)` (tocsic.py lines 14, 184):
leftmost occurrence of the anchor-tag pattern anywhere in the line (the
leading `\s*` of the pattern is vacuous under `re.search`); returns the
captured identifier. -/
def kwSearch : List Char → Option (List Char)
  | [] => none
  | c :: rest =>
    match matchKwAt (c :: rest) with
    | some w => some w
    | none => kwSearch rest

/-- `make_toc_entry`'s keyword handling (tocsic.py lines 181-186):
`link = ''`, replaced by the captured group when the search succeeds. -/
def kwExtract (l : List Char) : List Char := (kwSearch l).getD []

/-- One entry of `toc_info`: the tuple `(level, header_name, link)`
(tocsic.py line 190). -/
structure TocEntry where
  level : Nat
  name : List Char
  link : List Char
deriving DecidableEq

/-- `Tocsic.BodyState` (tocsic.py lines 16-20).  The declared value
`FOUND_HEADER` is never assigned nor matched by the scanner, so it is
omitted from the model. -/
inductive BodyState
  | BODY
  | FOUND_LINK
  | IN_CODE_BLOCK
deriving DecidableEq

/-- The mutable state of one scan: the state-machine state, the buffered
pending anchor line (`link_line`), the accumulated `toc_info`, the rewritten
body (as lines), `header_dict`, and the diagnostics printed so far. -/
structure ScanState where
  bodyState : BodyState
  linkLine : List Char
  tocInfo : List TocEntry
  body : List (List Char)
  headerDict : Dict
  diags : List String
deriving DecidableEq

/-- Initial scanner state (tocsic.py lines 32-36, 120-121). -/
def initState : ScanState :=
  { bodyState := .BODY, linkLine := [], tocInfo := [], body := [],
    headerDict := [], diags := [] }

/-- The non-fatal diagnostic printed when content sits between an anchor tag
and its header (tocsic.py line 154). -/
def betweenDiag : String := "ERROR: There is something between <a> and a header"

/-- The synthesized anchor line `'<a id="{}"></a>'.format(link)`
(tocsic.py lines 133, 152), without its trailing newline. -/
def anchorLine (k : List Char) : List Char :=
  "<a id=\"".toList ++ k ++ "\"></a>".toList

/-- `Tocsic.make_toc_entry` (tocsic.py lines 173-190).  `keyword_line` is `[]`
for Python `None` or the empty string (both falsy at line 183).  On a failed
header match it raises, modelled as `.error line_num`; otherwise it returns
the new entry and the possibly-updated `header_dict`. -/
def make_toc_entry (dict : Dict) (line : List Char) (line_num : Nat)
    (keyword_line : List Char) : Except Nat (TocEntry × Dict) :=
  match headSearch line with
  | none => .error line_num
  | some (g1, name) =>
    if keyword_line.isEmpty then
      let r := header_to_link dict name
      .ok (⟨g1 - 1, name, r.1⟩, r.2)
    else
      .ok (⟨g1 - 1, name, kwExtract keyword_line⟩, dict)

/-- One iteration of the `process_body` loop (tocsic.py lines 124-155): each
state consumes exactly one line.  `n` is the 1-based number of that line. -/
def processLine (st : ScanState) (line : List Char) (n : Nat) :
    Except Nat ScanState :=
  match st.bodyState with
  | .BODY =>
    if sw "<a" line then
      .ok { st with linkLine := line, bodyState := .FOUND_LINK }
    else if sw "#" line then
      match make_toc_entry st.headerDict line n [] with
      | .error e => .error e
      | .ok (entry, d) =>
        .ok { st with tocInfo := st.tocInfo ++ [entry], headerDict := d,
                      body := st.body ++ [anchorLine entry.link, line] }
    else if sw "```" line then
      .ok { st with bodyState := .IN_CODE_BLOCK, body := st.body ++ [line] }
    else
      .ok { st with body := st.body ++ [line] }
  | .IN_CODE_BLOCK =>
    .ok { st with bodyState := if sw "```" line then .BODY else .IN_CODE_BLOCK,
                  body := st.body ++ [line] }
  | .FOUND_LINK =>
    if sw "<a" line then
      .ok { st with linkLine := line, body := st.body ++ [line] }
    else if sw "#" line then
      match make_toc_entry st.headerDict line n st.linkLine with
      | .error e => .error e
      | .ok (entry, d) =>
        .ok { st with bodyState := .BODY, tocInfo := st.tocInfo ++ [entry],
                      headerDict := d,
                      body := st.body ++ [anchorLine entry.link, line] }
    else if isBlank line then
      .ok { st with body := st.body ++ [line] }
    else
      .ok { st with body := st.body ++ [line],
                    diags := st.diags ++ [betweenDiag] }

/-- `Tocsic.process_body` (tocsic.py lines 119-157) over the remaining lines;
`base` is the number of document lines already consumed, so the `j`-th
remaining line (0-based) carries the 1-based number `base + j + 1`, matching
`FileReader.line_num` (a replayed line keeps its original number). -/
def process_body (st : ScanState) (lines : List (List Char)) (base : Nat) :
    Except Nat ScanState :=
  match lines with
  | [] => .ok st
  | l :: rest =>
    match processLine st l (base + 1) with
    | .error e => .error e
    | .ok st' => process_body st' rest (base + 1)

/-- The literal TOC marker line (tocsic.py line 11). -/
def tocMarker : List Char := "# Table of Contents".toList

/-- `Tocsic.process_start` (tocsic.py lines 93-106): skip blank lines; on the
first non-blank line push it back and report whether its stripped text equals
the marker; on exhaustion report false with nothing left. -/
def process_start : List (List Char) → Bool × List (List Char)
  | [] => (false, [])
  | l :: rest =>
    if isBlank l then process_start rest
    else (pyStrip l == tocMarker, l :: rest)

/-- `Tocsic.process_toc` (tocsic.py lines 108-117): consume lines while they
are non-blank; the terminating blank line is pushed back (kept). -/
def process_toc : List (List Char) → List (List Char)
  | [] => []
  | l :: rest => if isBlank l then l :: rest else process_toc rest

/-- The lines actually fed to `process_body` by `add_toc` (tocsic.py
lines 83-86): leading blanks are always dropped by `process_start`, and when
the first non-blank line is the TOC marker the old TOC block is also
consumed by `process_toc`. -/
def bodyStream (doc : List (List Char)) : List (List Char) :=
  let r := process_start doc
  if r.1 then process_toc r.2 else r.2

/-- The scanning part of `Tocsic.add_toc` (tocsic.py lines 79-88): run the
body scanner on `bodyStream doc`, numbering lines as `FileReader` does. -/
def scanDoc (doc : List (List Char)) : Except Nat ScanState :=
  process_body initState (bodyStream doc) (doc.length - (bodyStream doc).length)

/-- One rendered TOC line (tocsic.py line 194):
`'    ' * level ++ "1. [name](#link)"`. -/
def tocEntryLine (e : TocEntry) : List Char :=
  List.replicate (4 * e.level) ' ' ++ "1. [".toList ++ e.name
    ++ "](#".toList ++ e.link ++ ")".toList

/-- `Tocsic.make_toc` (tocsic.py lines 192-194) as lines: the marker followed
by one rendered line per entry, in order. -/
def tocLines (entries : List TocEntry) : List (List Char) :=
  tocMarker :: entries.map tocEntryLine

/-- `add_toc` followed by `generate_md` (tocsic.py lines 79-91, 196-200):
on success the output file is the rendered TOC, a blank line, then the
rewritten body.  `.error n` models the fatal abort at line `n` with no
output file written. -/
def addToc (doc : List (List Char)) : Except Nat (List (List Char)) :=
  match scanDoc doc with
  | .error n => .error n
  | .ok st => .ok (tocLines st.tocInfo ++ [[]] ++ st.body)

/-- Split a character list at its first `'.'`: Python `s.split('.', 1)`
restricted to the case used by `make_output_name`. -/
def splitOnceDot : List Char → Option (List Char × List Char)
  | [] => none
  | c :: cs =>
    if c = '.' then some ([], cs)
    else
      match splitOnceDot cs with
      | none => none
      | some (a, b) => some (c :: a, b)

/-- `Tocsic.make_output_name` (tocsic.py lines 72-77): without a dot append
`_toc`; otherwise reverse the name, split once at the first dot of the
reversal, join the two halves with the literal `.cot_`, and reverse back. -/
def make_output_name (f : List Char) : List Char :=
  match splitOnceDot f.reverse with
  | none => f ++ "_toc".toList
  | some (a, b) => (a ++ ".cot_".toList ++ b).reverse

/-- Maximal-run replacement written directly as the claims describe it:
every maximal run of characters of the class `p` becomes one underscore
(the whole run is dropped at once). -/
def replaceRuns (p : Char → Bool) : List Char → List Char
  | [] => []
  | c :: cs =>
    if p c then '_' :: replaceRuns p (cs.dropWhile p)
    else c :: replaceRuns p cs
termination_by l => l.length
decreasing_by
  · exact Nat.lt_succ_of_le ((List.dropWhile_sublist p).length_le)
  · simp

/-- The character class named by claim C3 as written: space, hyphen or
slash only. -/
def claimClass (c : Char) : Bool := c == ' ' || c == '-' || c == '/'

/-- The anchor derivation exactly as claim C3 words it (spec section 4.4):
lower-case, replace every maximal run of spaces/hyphens/slashes by one
underscore, strip underscores from the ends, remove every remaining
character that is not alphanumeric or underscore. -/
def claimSlug (t : List Char) : List Char :=
  (stripUnd (replaceRuns claimClass (t.map pyLowerChar))).filter keepChar

/-- The anchor derivation as amended: same pipeline, but the replaced runs
are maximal runs of the ASCII range from space (0x20) to slash (0x2F), the
class the source regex bracket expression actually denotes. -/
def amendedSlug (t : List Char) : List Char :=
  (stripUnd (replaceRuns inDashClass (t.map pyLowerChar))).filter keepChar

/-! Helper lemmas. -/

theorem splitOnceDot_eq_none {l : List Char} (h : '.' ∉ l) :
    splitOnceDot l = none := by
  induction l with
  | nil => rfl
  | cons c cs ih =>
    simp only [List.mem_cons, not_or] at h
    simp only [splitOnceDot, if_neg (Ne.symm h.1)]
    rw [ih h.2]

theorem splitOnceDot_append {a b : List Char} (h : '.' ∉ a) :
    splitOnceDot (a ++ '.' :: b) = some (a, b) := by
  induction a with
  | nil => simp [splitOnceDot]
  | cons c cs ih =>
    simp only [List.mem_cons, not_or] at h
    simp only [List.cons_append, splitOnceDot, List.append_eq, ih h.2,
      if_neg (Ne.symm h.1)]

theorem runReplaceAux_true_eq (p : Char → Bool) (cs : List Char) :
    runReplaceAux p true cs = runReplaceAux p false (cs.dropWhile p) := by
  induction cs with
  | nil => rfl
  | cons c cs ih =>
    by_cases h : p c = true
    · simp [runReplaceAux, h, List.dropWhile_cons_of_pos h, ih]
    · rw [List.dropWhile_cons_of_neg h]
      simp [runReplaceAux, h]

theorem replaceRuns_eq (p : Char → Bool) (l : List Char) :
    replaceRuns p l = runReplaceAux p false l := by
  have main : ∀ n (l : List Char), l.length ≤ n →
      replaceRuns p l = runReplaceAux p false l := by
    intro n
    induction n with
    | zero =>
      intro l hl
      have : l = [] := List.eq_nil_of_length_eq_zero (Nat.le_zero.mp hl)
      subst this
      simp [replaceRuns, runReplaceAux]
    | succ n ih =>
      intro l hl
      match l with
      | [] => simp [replaceRuns, runReplaceAux]
      | c :: cs =>
        by_cases h : p c = true
        · rw [replaceRuns, if_pos h]
          rw [ih (cs.dropWhile p)
            (le_trans (List.dropWhile_sublist p).length_le
              (Nat.le_of_succ_le_succ hl))]
          rw [← runReplaceAux_true_eq]
          simp [runReplaceAux, h]
        · rw [replaceRuns, if_neg h]
          rw [ih cs (Nat.le_of_succ_le_succ hl)]
          simp [runReplaceAux, h]
  exact main l.length l le_rfl

theorem linkOf_eq_amendedSlug (t : List Char) : linkOf t = amendedSlug t := by
  unfold linkOf amendedSlug subUnderscore
  rw [replaceRuns_eq]

/-! Claim C9. -/

/-- C9 counterexample: for the input name `a.b` the default output name
produced by the code is `a_toc.b`, whereas the claim's description (inserting
the literal `.cot_` immediately before the final extension component) would
give `a.cot_b`, or `a..cot_b` on the insertion reading; the code produces
neither. -/
theorem c9_counterexample :
    make_output_name ("a.b".toList) = "a_toc.b".toList ∧
    "a_toc.b".toList ≠ "a.cot_b".toList ∧
    "a_toc.b".toList ≠ "a..cot_b".toList := by
  refine ⟨rfl, by decide, by decide⟩

/-- C9 amended: when no explicit output path is given, an input name without
a dot gets the literal suffix `_toc` appended; an input name with a dot has
the literal `_toc.` substituted for its final dot, i.e. the suffix `_toc` is
inserted immediately before the final dot (the reversed name is split at its
first dot and the halves joined with the reversed literal `.cot_`). -/
theorem c9_amended_output_name :
    (∀ f : List Char, '.' ∉ f → make_output_name f = f ++ "_toc".toList) ∧
    (∀ stem ext : List Char, '.' ∉ ext →
      make_output_name (stem ++ '.' :: ext) = stem ++ "_toc.".toList ++ ext) := by
  constructor
  · intro f hf
    unfold make_output_name
    rw [splitOnceDot_eq_none (by simpa using hf)]
  · intro stem ext hext
    unfold make_output_name
    have hrev : (stem ++ '.' :: ext).reverse = ext.reverse ++ '.' :: stem.reverse := by
      simp
    rw [hrev, splitOnceDot_append (by simpa using hext)]
    simp [List.append_assoc]

/-- C9 witness: the amended naming rule evaluated at `noext` and `file.md`. -/
theorem c9_amended_output_name_witness :
    make_output_name ("noext".toList) = "noext".toList ++ "_toc".toList ∧
    make_output_name ("file".toList ++ '.' :: "md".toList) =
      "file".toList ++ "_toc.".toList ++ "md".toList := by
  constructor
  · exact c9_amended_output_name.1 ("noext".toList) (by decide)
  · exact c9_amended_output_name.2 ("file".toList) ("md".toList) (by decide)

/-! Claim C3. -/

/-- C3 counterexample: for the header title `A!B` the code derives `a_b`
(the bang lies inside the regex range from space to slash and becomes an
underscore), while the transform described by the claim (replacing only
runs of spaces, hyphens and slashes) yields `ab`. -/
theorem c3_counterexample :
    (header_to_link [] ("A!B".toList)).1 = "a_b".toList ∧
    claimSlug ("A!B".toList) = "ab".toList ∧
    "a_b".toList ≠ "ab".toList := by
  refine ⟨rfl, ?_, by decide⟩
  unfold claimSlug
  rw [replaceRuns_eq]
  rfl

/-- C3 amended: the derived anchor follows the claim's pipeline with the
character class corrected to the full ASCII range from space (0x20) to slash
(0x2F): lower-case, replace every maximal run of characters in that range by
one underscore, strip leading and trailing underscores, drop every remaining
character that is not alphanumeric or underscore.  A candidate never used is
returned unchanged and recorded with count 1; a candidate used `n + 1` times
before is returned with the suffix `_` followed by `n + 1`, the prior
occurrence count.  `# Hello World!` still derives `hello_world`, and two
`Setup` headers derive `setup` then `setup_1`. -/
theorem c3_amended_anchor_derivation :
    (∀ d t, dictGet d (amendedSlug t) = 0 →
      header_to_link d t = (amendedSlug t, dictSet d (amendedSlug t) 1)) ∧
    (∀ d t n, dictGet d (amendedSlug t) = n + 1 →
      header_to_link d t =
        (amendedSlug t ++ '_' :: natChars (n + 1),
         dictSet d (amendedSlug t) (n + 2))) ∧
    (header_to_link [] ("Hello World!".toList)).1 = "hello_world".toList ∧
    (header_to_link [] ("Setup".toList)).1 = "setup".toList ∧
    (header_to_link (header_to_link [] ("Setup".toList)).2 ("Setup".toList)).1 =
      "setup_1".toList := by
  refine ⟨?_, ?_, rfl, rfl, rfl⟩
  · intro d t h
    simp [header_to_link, linkOf_eq_amendedSlug, h]
  · intro d t n h
    simp [header_to_link, linkOf_eq_amendedSlug, h]

/-- C3 witness: the amended derivation applied at concrete inputs, a fresh
dictionary for `Hello World!` and a dictionary already holding `setup`. -/
theorem c3_amended_anchor_derivation_witness :
    header_to_link [] ("Hello World!".toList) =
      (amendedSlug ("Hello World!".toList),
       dictSet [] (amendedSlug ("Hello World!".toList)) 1) ∧
    header_to_link [("setup".toList, 1)] ("Setup".toList) =
      (amendedSlug ("Setup".toList) ++ '_' :: natChars 1,
       dictSet [("setup".toList, 1)] (amendedSlug ("Setup".toList)) 2) := by
  constructor
  · exact c3_amended_anchor_derivation.1 [] ("Hello World!".toList) rfl
  · exact c3_amended_anchor_derivation.2.1 [("setup".toList, 1)] ("Setup".toList) 0
      (by rw [← linkOf_eq_amendedSlug]; rfl)

/-! Prefix-shape helper lemmas. -/

theorem sw_hash_iff (l : List Char) : sw "#" l = true ↔ ∃ cs, l = '#' :: cs := by
  cases l with
  | nil => simp [sw, List.isPrefixOf]
  | cons c cs =>
    simp only [sw, List.isPrefixOf, Bool.and_true, beq_iff_eq]
    constructor
    · rintro rfl
      exact ⟨cs, rfl⟩
    · rintro ⟨cs', h⟩
      injection h with h1 h2
      exact h1.symm

theorem sw_anchor_iff (l : List Char) : sw "<a" l = true ↔ ∃ cs, l = '<' :: 'a' :: cs := by
  match l with
  | [] => simp [sw, List.isPrefixOf]
  | [c] =>
    simp [sw, List.isPrefixOf]
  | c1 :: c2 :: cs =>
    simp only [sw, List.isPrefixOf, Bool.and_true, Bool.and_eq_true, beq_iff_eq]
    constructor
    · rintro ⟨rfl, rfl⟩
      exact ⟨cs, rfl⟩
    · rintro ⟨cs', h⟩
      injection h with h1 h2
      injection h2 with h2 h3
      exact ⟨h1.symm, h2.symm⟩

theorem sw_fence_iff (l : List Char) :
    sw "```" l = true ↔ ∃ cs, l = '`' :: '`' :: '`' :: cs := by
  match l with
  | [] => simp [sw, List.isPrefixOf]
  | [c] => simp [sw, List.isPrefixOf]
  | [c1, c2] => simp [sw, List.isPrefixOf]
  | c1 :: c2 :: c3 :: cs =>
    simp only [sw, List.isPrefixOf, Bool.and_true, Bool.and_eq_true, beq_iff_eq]
    constructor
    · rintro ⟨rfl, rfl, rfl⟩
      exact ⟨cs, rfl⟩
    · rintro ⟨cs', h⟩
      injection h with h1 h2
      injection h2 with h2 h3
      injection h3 with h3 h4
      exact ⟨h1.symm, h2.symm, h3.symm⟩

theorem sw_hash_not_anchor {l : List Char} (h : sw "#" l = true) : sw "<a" l = false := by
  obtain ⟨cs, rfl⟩ := (sw_hash_iff l).mp h
  rfl

theorem sw_hash_not_fence {l : List Char} (h : sw "#" l = true) : sw "```" l = false := by
  obtain ⟨cs, rfl⟩ := (sw_hash_iff l).mp h
  rfl

theorem sw_anchor_not_hash {l : List Char} (h : sw "<a" l = true) : sw "#" l = false := by
  obtain ⟨cs, rfl⟩ := (sw_anchor_iff l).mp h
  rfl

theorem sw_anchor_not_fence {l : List Char} (h : sw "<a" l = true) : sw "```" l = false := by
  obtain ⟨cs, rfl⟩ := (sw_anchor_iff l).mp h
  rfl

theorem sw_anchor_ne_nil {l : List Char} (h : sw "<a" l = true) : l ≠ [] := by
  obtain ⟨cs, rfl⟩ := (sw_anchor_iff l).mp h
  exact List.cons_ne_nil _ _

theorem anchorLine_cons (k : List Char) :
    anchorLine k = '<' :: 'a' :: ' ' :: 'i' :: 'd' :: '=' :: '"' ::
      (k ++ "\"></a>".toList) := rfl

theorem sw_anchor_anchorLine (k : List Char) : sw "<a" (anchorLine k) = true := rfl

theorem sw_hash_anchorLine (k : List Char) : sw "#" (anchorLine k) = false := rfl

theorem sw_fence_anchorLine (k : List Char) : sw "```" (anchorLine k) = false := rfl

theorem anchorLine_ne_nil (k : List Char) : anchorLine k ≠ [] := by
  rw [anchorLine_cons]
  exact List.cons_ne_nil _ _

/-! Claim C4. -/

/-- C4: while the scanner is in the code-block state it appends every line
to the body verbatim, creates no TOC entry and interprets no header or
anchor syntax; a segment free of fence markers leaves the state in
`IN_CODE_BLOCK` and only extends the body, and a line starting with three
backticks is itself appended verbatim and switches the state back to
`BODY` without producing an entry. -/
theorem c4_code_block_no_entries :
    (∀ st lines base, st.bodyState = .IN_CODE_BLOCK →
      (∀ l ∈ lines, sw "```" l = false) →
      process_body st lines base = .ok { st with body := st.body ++ lines }) ∧
    (∀ st l n, st.bodyState = .IN_CODE_BLOCK → sw "```" l = true →
      processLine st l n = .ok { st with bodyState := .BODY, body := st.body ++ [l] }) := by
  constructor
  · intro st lines base
    induction lines generalizing st base with
    | nil =>
      intro h hf
      simp [process_body]
    | cons l rest ih =>
      intro h hf
      obtain ⟨bs, ll, ti, bd, hd, dg⟩ := st
      simp only at h
      subst h
      simp only [process_body, processLine, hf l (by simp), if_neg]
      rw [ih _ (base + 1) rfl (fun x hx => hf x (by simp [hx]))]
      simp
  · intro st l n h hf
    obtain ⟨bs, ll, ti, bd, hd, dg⟩ := st
    simp only at h
    subst h
    simp [processLine, hf]

/-- C4 witness: the two parts applied at a concrete code-block state, a
concrete fence-free segment and a concrete closing fence. -/
theorem c4_code_block_no_entries_witness :
    process_body ⟨.IN_CODE_BLOCK, [], [], [], [], []⟩
        ["# H".toList, "<a id=\"w\"></a>".toList] 0 =
      .ok ⟨.IN_CODE_BLOCK, [], [], ["# H".toList, "<a id=\"w\"></a>".toList], [], []⟩ ∧
    processLine ⟨.IN_CODE_BLOCK, [], [], [], [], []⟩ ("```".toList) 9 =
      .ok ⟨.BODY, [], [], ["```".toList], [], []⟩ := by
  constructor
  · exact c4_code_block_no_entries.1 ⟨.IN_CODE_BLOCK, [], [], [], [], []⟩
      ["# H".toList, "<a id=\"w\"></a>".toList] 0 rfl (by decide)
  · exact c4_code_block_no_entries.2 ⟨.IN_CODE_BLOCK, [], [], [], [], []⟩
      ("```".toList) 9 rfl rfl

/-! Claim C5. -/

/-- C5 counterexample: in the pending-anchor state a line that is neither an
anchor tag, a header, nor blank leaves the scanner in `FOUND_LINK` (the
pending-anchor state), not in `BODY` as the claim states, while appending
the line and emitting the diagnostic. -/
theorem c5_counterexample :
    processLine ⟨.FOUND_LINK, "<a id=\"x\"></a>".toList, [], [], [], []⟩
        ("junk".toList) 5 =
      .ok ⟨.FOUND_LINK, "<a id=\"x\"></a>".toList, [], ["junk".toList], [],
           [betweenDiag]⟩ ∧
    BodyState.FOUND_LINK ≠ BodyState.BODY := by
  exact ⟨rfl, by decide⟩

/-- C5 amended: in the pending-anchor state, a line that is neither an
anchor tag, nor a header, nor blank/whitespace-only triggers the non-fatal
diagnostic, is still appended to the body, produces no TOC entry, and the
scanner continues in the pending-anchor state `FOUND_LINK` with the pending
anchor line unchanged (not in `BODY`). -/
theorem c5_amended_pending_diagnostic :
    ∀ st l n, st.bodyState = .FOUND_LINK → sw "<a" l = false → sw "#" l = false →
      isBlank l = false →
      processLine st l n =
        .ok { st with body := st.body ++ [l], diags := st.diags ++ [betweenDiag] } := by
  intro st l n h h1 h2 h3
  obtain ⟨bs, ll, ti, bd, hd, dg⟩ := st
  simp only at h
  subst h
  simp [processLine, h1, h2, h3]

/-- C5 witness: the amended statement applied at a concrete pending-anchor
state and the concrete line `junk2`. -/
theorem c5_amended_pending_diagnostic_witness :
    processLine ⟨.FOUND_LINK, "<a id=\"q\"></a>".toList, [], [], [], []⟩
        ("junk2".toList) 7 =
      .ok ⟨.FOUND_LINK, "<a id=\"q\"></a>".toList, [], ["junk2".toList], [],
           [betweenDiag]⟩ := by
  exact c5_amended_pending_diagnostic ⟨.FOUND_LINK, "<a id=\"q\"></a>".toList, [], [], [], []⟩
    ("junk2".toList) 7 rfl rfl rfl rfl

/-! Claim C6. -/

/-- C6 counterexample: recognition is not the regex — the line `<abbr>` does
not match the anchor-tag pattern yet is recognized (withheld from the body
and buffered as the pending anchor), while the line consisting of one space
followed by a well-formed anchor tag matches the pattern yet is not
recognized (it is appended to the body as an ordinary line because it does
not start with the two characters `<a`). -/
theorem c6_counterexample :
    (processLine initState ("<abbr>".toList) 1 =
        .ok { initState with bodyState := .FOUND_LINK, linkLine := "<abbr>".toList } ∧
      kwSearch ("<abbr>".toList) = none) ∧
    (processLine initState (" <a id=\"y\"></a>".toList) 1 =
        .ok { initState with body := [" <a id=\"y\"></a>".toList] } ∧
      kwSearch (" <a id=\"y\"></a>".toList) = some ("y".toList)) := by
  exact ⟨⟨rfl, rfl⟩, ⟨rfl, rfl⟩⟩

/-- C6 amended: the lines recognized as explicit anchor tags are exactly
those beginning with the two characters `<a` (in the `BODY` state such a
line is withheld from the body and buffered; any other non-header,
non-fence line — including one that matches the anchor-tag pattern after
leading whitespace — is appended to the body unrecognized); when the
buffered line is attached to a following header, the anchor of the TOC
entry is the identifier captured by the pattern from the buffered line,
used verbatim (`kwExtract`), the empty string when the pattern does not
match. -/
theorem c6_amended_anchor_recognition :
    (∀ st l n, st.bodyState = .BODY → sw "<a" l = true →
      processLine st l n = .ok { st with bodyState := .FOUND_LINK, linkLine := l }) ∧
    (∀ st l n, st.bodyState = .BODY → sw "<a" l = false → sw "#" l = false →
      sw "```" l = false →
      processLine st l n = .ok { st with body := st.body ++ [l] }) ∧
    (∀ st l n g1 t, st.bodyState = .FOUND_LINK → st.linkLine ≠ [] →
      sw "#" l = true → headSearch l = some (g1, t) →
      processLine st l n =
        .ok { st with bodyState := .BODY,
                      tocInfo := st.tocInfo ++ [⟨g1 - 1, t, kwExtract st.linkLine⟩],
                      body := st.body ++ [anchorLine (kwExtract st.linkLine), l] }) := by
  refine ⟨?_, ?_, ?_⟩
  · intro st l n h ha
    obtain ⟨bs, ll, ti, bd, hd, dg⟩ := st
    simp only at h
    subst h
    simp [processLine, ha]
  · intro st l n h h1 h2 h3
    obtain ⟨bs, ll, ti, bd, hd, dg⟩ := st
    simp only at h
    subst h
    simp [processLine, h1, h2, h3]
  · intro st l n g1 t h hll hsw hsearch
    obtain ⟨bs, ll, ti, bd, hd, dg⟩ := st
    simp only at h hll
    subst h
    simp [processLine, hsw, sw_hash_not_anchor hsw, make_toc_entry, hsearch,
      List.isEmpty_eq_false.mpr hll]

/-- C6 witness: the three parts of the amended recognition rule evaluated at
concrete states and lines. -/
theorem c6_amended_anchor_recognition_witness :
    processLine initState ("<a href>".toList) 3 =
      .ok { initState with bodyState := .FOUND_LINK, linkLine := "<a href>".toList } ∧
    processLine initState ("  <a id=\"z\"></a>".toList) 4 =
      .ok { initState with body := ["  <a id=\"z\"></a>".toList] } ∧
    processLine ⟨.FOUND_LINK, "<a id=\"z\"></a>".toList, [], [], [], []⟩
        ("## T".toList) 5 =
      .ok { bodyState := .BODY,
            linkLine := "<a id=\"z\"></a>".toList,
            tocInfo := [⟨1, "T".toList, kwExtract ("<a id=\"z\"></a>".toList)⟩],
            body := [anchorLine (kwExtract ("<a id=\"z\"></a>".toList)), "## T".toList],
            headerDict := [], diags := [] } := by
  refine ⟨?_, ?_, ?_⟩
  · exact c6_amended_anchor_recognition.1 initState ("<a href>".toList) 3 rfl rfl
  · exact c6_amended_anchor_recognition.2.1 initState ("  <a id=\"z\"></a>".toList) 4
      rfl rfl rfl rfl
  · exact c6_amended_anchor_recognition.2.2
      ⟨.FOUND_LINK, "<a id=\"z\"></a>".toList, [], [], [], []⟩
      ("## T".toList) 5 2 ("T".toList) rfl (by decide) rfl rfl

/-! Claim C10. -/

/-- C10: in the `BODY` state every line beginning with the two characters
`<a` — even one that does not match the anchor-tag pattern — is withheld
from the body and buffered as the pending anchor; when a header line
follows, its TOC entry carries the empty anchor (the pattern search on the
buffered line fails, leaving `link = ''`) and the synthesized line
`anchorLine []`, i.e. an anchor tag with an empty identifier, is inserted
into the body before the header line. -/
theorem c10_nonmatching_anchor_pending :
    ∀ st l h n m g1 t, st.bodyState = .BODY → sw "<a" l = true →
      kwSearch l = none → sw "#" h = true → headSearch h = some (g1, t) →
      processLine st l n = .ok { st with bodyState := .FOUND_LINK, linkLine := l } ∧
      processLine { st with bodyState := .FOUND_LINK, linkLine := l } h m =
        .ok { st with bodyState := .BODY, linkLine := l,
                      tocInfo := st.tocInfo ++ [⟨g1 - 1, t, []⟩],
                      body := st.body ++ [anchorLine [], h] } := by
  intro st l h n m g1 t hb ha hkw hsw hsearch
  obtain ⟨bs, ll, ti, bd, hd, dg⟩ := st
  simp only at hb
  subst hb
  constructor
  · simp [processLine, ha]
  · have hne : l ≠ [] := sw_anchor_ne_nil ha
    have hex : kwExtract l = [] := by simp [kwExtract, hkw]
    simp [processLine, hsw, sw_hash_not_anchor hsw, make_toc_entry, hsearch,
      List.isEmpty_eq_false.mpr hne, hex]

/-- C10 witness: the rule evaluated at the initial state with the
non-matching anchor line `<abbr>` followed by the header `# Hi`. -/
theorem c10_nonmatching_anchor_pending_witness :
    processLine initState ("<abbr>".toList) 1 =
      .ok { initState with bodyState := .FOUND_LINK, linkLine := "<abbr>".toList } ∧
    processLine { initState with bodyState := .FOUND_LINK,
                                 linkLine := "<abbr>".toList } ("# Hi".toList) 2 =
      .ok { initState with bodyState := .BODY, linkLine := "<abbr>".toList,
                           tocInfo := [⟨0, "Hi".toList, []⟩],
                           body := [anchorLine [], "# Hi".toList] } := by
  exact c10_nonmatching_anchor_pending initState ("<abbr>".toList) ("# Hi".toList)
    1 2 1 ("Hi".toList) rfl rfl rfl rfl rfl

/-! Claim C2 infrastructure. -/

theorem process_body_append_ok (xs : List (List Char)) :
    ∀ (ys : List (List Char)) (st : ScanState) (b : Nat) (st₁ : ScanState),
    process_body st xs b = .ok st₁ →
    process_body st (xs ++ ys) b = process_body st₁ ys (b + xs.length) := by
  induction xs with
  | nil =>
    intro ys st b st₁ h
    simp [process_body] at h
    subst h
    simp
  | cons x xs ih =>
    intro ys st b st₁ h
    simp only [process_body] at h ⊢
    cases hx : processLine st x (b + 1) with
    | error e =>
      rw [hx] at h
      simp at h
    | ok st' =>
      rw [hx] at h
      dsimp only at h
      simp only [List.append_eq]
      rw [ih ys st' (b + 1) st₁ h]
      congr 1
      simp only [List.length_cons]
      omega

theorem headSearch_hash_none_iff (r : List Char) :
    headSearch ('#' :: r) = none ↔ ∀ c ∈ r, pyIsSpace c = true := by
  have hp : ((fun c => (c == '#')) '#') = true := by decide
  cases h1 : (r.dropWhile (fun c => c == '#')).any (fun c => !(pyIsSpace c)) with
  | true =>
    have hv : headSearch ('#' :: r) =
        some ((r.takeWhile (fun c => c == '#')).length + 1,
              pyStrip (r.dropWhile (fun c => c == '#'))) := by
      simp [headSearch, List.takeWhile_cons_of_pos hp, List.dropWhile_cons_of_pos hp, h1]
    refine iff_of_false (by simp [hv]) ?_
    intro hall
    obtain ⟨c, hc, hcw⟩ := List.any_eq_true.mp h1
    have hcr : c ∈ r := (List.dropWhile_sublist _).subset hc
    rw [hall c hcr] at hcw
    simp at hcw
  | false =>
    cases h2 : r.takeWhile (fun c => c == '#') with
    | nil =>
      have hdw : r.dropWhile (fun c => c == '#') = r := by
        have h3 := List.takeWhile_append_dropWhile (p := fun c => c == '#') (l := r)
        rw [h2] at h3
        simpa using h3
      have hnone : headSearch ('#' :: r) = none := by
        simp [headSearch, List.takeWhile_cons_of_pos hp, List.dropWhile_cons_of_pos hp,
          h1, h2]
      refine iff_of_true hnone ?_
      intro c hc
      rw [hdw] at h1
      have h4 := List.any_eq_false.mp h1 c hc
      simpa using h4
    | cons c cs =>
      have hv : headSearch ('#' :: r) = some (cs.length + 1, ['#']) := by
        simp [headSearch, List.takeWhile_cons_of_pos hp, List.dropWhile_cons_of_pos hp,
          h1, h2, Nat.le_add_left 2 cs.length]
      refine iff_of_false (by simp [hv]) ?_
      intro hall
      have hcmem : c ∈ r.takeWhile (fun c => c == '#') := by
        rw [h2]
        exact List.mem_cons_self _ _
      have hch : ((fun c => (c == '#')) c) = true :=
        List.mem_takeWhile_imp (p := fun c => c == '#') (l := r) hcmem
      have hcr : c ∈ r := (List.takeWhile_sublist _).subset hcmem
      have hws := hall c hcr
      simp only [beq_iff_eq] at hch
      subst hch
      simp [pyIsSpace] at hws

/-! Claim C2. -/

/-- C2 counterexample: the line `####` does not abort the scan.  The header
regex matches it through backtracking (three hashes as group 1, the fourth
hash as the title), so the scan succeeds, producing a level-2 entry titled
`#` with an empty derived anchor, and an output file is written. -/
theorem c2_counterexample :
    scanDoc ["####".toList] =
      .ok ⟨.BODY, [], [⟨2, ['#'], []⟩], [anchorLine [], "####".toList], [([], 1)], []⟩ ∧
    addToc ["####".toList] =
      .ok ["# Table of Contents".toList, "        1. [#](#)".toList, [],
           anchorLine [], "####".toList] := ⟨rfl, rfl⟩

/-- C2 amended: a line read outside a code block that starts with `#` and
fails the header pattern aborts the scan with a fatal error carrying the
1-based number of that line, and no output file is written; but the lines
failing the pattern are exactly those consisting of a single `#` followed
by nothing but whitespace — in particular `####` matches the pattern (as a
level-2 header titled `#`, groups `###` and `#` via backtracking) and does
not abort. -/
theorem c2_amended_abort :
    (∀ r : List Char, headSearch ('#' :: r) = none ↔ ∀ c ∈ r, pyIsSpace c = true) ∧
    headSearch ("####".toList) = some (3, ['#']) ∧
    (∀ doc pre l rest st', bodyStream doc = pre ++ l :: rest →
      process_body initState pre (doc.length - (bodyStream doc).length) = .ok st' →
      st'.bodyState ≠ .IN_CODE_BLOCK → sw "#" l = true → headSearch l = none →
      addToc doc = .error (doc.length - (bodyStream doc).length + pre.length + 1)) := by
  refine ⟨headSearch_hash_none_iff, rfl, ?_⟩
  intro doc pre l rest st' hsplit hpre hstate hsw hnone
  have hline : ∀ n : Nat, processLine st' l n = .error n := by
    intro n
    obtain ⟨bs, ll, ti, bd, hd, dg⟩ := st'
    simp only at hstate
    cases bs with
    | BODY => simp [processLine, sw_hash_not_anchor hsw, hsw, make_toc_entry, hnone]
    | FOUND_LINK => simp [processLine, sw_hash_not_anchor hsw, hsw, make_toc_entry, hnone]
    | IN_CODE_BLOCK => exact absurd rfl hstate
  rw [hsplit] at hpre
  unfold addToc scanDoc
  rw [hsplit, process_body_append_ok (pre) (l :: rest) initState _ st' hpre]
  simp only [process_body, hline]

/-- C2 witness: the amended abort rule applied to the one-line document `#`:
the scan aborts with the fatal error naming line 1 and produces no output. -/
theorem c2_amended_abort_witness :
    addToc [['#']] = .error 1 := by
  exact c2_amended_abort.2.2 [['#']] [] ['#'] [] initState rfl rfl (by decide) rfl rfl

/-! Claim C1. -/

/-- C1, evaluated at the failing input: the three headers `# A 1`, `# A`,
`# A` produce three entries in document order, but the derived anchors are
`a_1`, `a`, `a_1` — the de-duplication suffix `_1` of the third header
collides with the anchor derived for the first header, so the anchors of
the generated TOC are not pairwise distinct. -/
theorem c1_duplicate_anchor_eval :
    Except.map (fun st => st.tocInfo)
        (scanDoc ["# A 1".toList, "# A".toList, "# A".toList]) =
      .ok [⟨0, "A 1".toList, "a_1".toList⟩, ⟨0, "A".toList, "a".toList⟩,
           ⟨0, "A".toList, "a_1".toList⟩] ∧
    ¬ ([("a_1".toList : List Char), "a".toList, "a_1".toList].Pairwise (· ≠ ·)) := by
  exact ⟨rfl, by decide⟩

/-! Claim C8 infrastructure. -/

theorem process_start_snd (doc : List (List Char)) :
    (process_start doc).2 = doc.dropWhile isBlank := by
  induction doc with
  | nil => rfl
  | cons l rest ih =>
    by_cases hb : isBlank l = true
    · simp [process_start, hb, List.dropWhile_cons_of_pos hb, ih]
    · simp [process_start, hb, List.dropWhile_cons_of_neg hb]

theorem process_toc_eq (ls : List (List Char)) :
    process_toc ls = ls.dropWhile (fun l => !(isBlank l)) := by
  induction ls with
  | nil => rfl
  | cons l rest ih =>
    by_cases hb : isBlank l = true
    · simp only [process_toc, if_pos hb]
      exact (List.dropWhile_cons_of_neg (by simp [hb])).symm
    · simp only [process_toc, if_neg hb, ih]
      rw [List.dropWhile_cons_of_pos (by simp [hb])]

theorem processLine_body_shape {st : ScanState} {x : List Char} {n : Nat}
    {st₁ : ScanState} (h : processLine st x n = .ok st₁) :
    st₁.body = st.body ∨ st₁.body = st.body ++ [x] ∨
      ∃ k, st₁.body = st.body ++ [anchorLine k, x] := by
  obtain ⟨bs, ll, ti, bd, hd, dg⟩ := st
  cases bs with
  | BODY =>
    by_cases ha : sw "<a" x = true
    · simp [processLine, ha] at h
      subst h
      left
      rfl
    · by_cases hh : sw "#" x = true
      · simp only [processLine, ha, hh, Bool.false_eq_true, if_false, if_true] at h
        cases hmk : make_toc_entry hd x n [] with
        | error e => rw [hmk] at h; simp at h
        | ok ed =>
          rw [hmk] at h
          dsimp only at h
          obtain ⟨rfl⟩ := Except.ok.inj h
          right; right
          exact ⟨ed.1.link, rfl⟩
      · by_cases hf : sw "```" x = true
        · simp [processLine, ha, hh, hf] at h
          subst h
          right; left
          rfl
        · simp [processLine, ha, hh, hf] at h
          subst h
          right; left
          rfl
  | IN_CODE_BLOCK =>
    simp [processLine] at h
    subst h
    right; left
    rfl
  | FOUND_LINK =>
    by_cases ha : sw "<a" x = true
    · simp [processLine, ha] at h
      subst h
      right; left
      rfl
    · by_cases hh : sw "#" x = true
      · simp only [processLine, ha, hh, Bool.false_eq_true, if_false, if_true] at h
        cases hmk : make_toc_entry hd x n ll with
        | error e => rw [hmk] at h; simp at h
        | ok ed =>
          rw [hmk] at h
          dsimp only at h
          obtain ⟨rfl⟩ := Except.ok.inj h
          right; right
          exact ⟨ed.1.link, rfl⟩
      · by_cases hb : isBlank x = true
        · simp [processLine, ha, hh, hb] at h
          subst h
          right; left
          rfl
        · simp [processLine, ha, hh, hb] at h
          subst h
          right; left
          rfl

theorem process_body_body_subset (lines : List (List Char)) :
    ∀ (st : ScanState) (b : Nat) (st' : ScanState),
    process_body st lines b = .ok st' →
    ∀ l ∈ st'.body, l ∈ st.body ∨ l ∈ lines ∨ ∃ k, l = anchorLine k := by
  induction lines with
  | nil =>
    intro st b st' h l hl
    simp [process_body] at h
    subst h
    exact Or.inl hl
  | cons x rest ih =>
    intro st b st' h l hl
    simp only [process_body] at h
    cases hx : processLine st x (b + 1) with
    | error e => rw [hx] at h; simp at h
    | ok st₁ =>
      rw [hx] at h
      dsimp only at h
      rcases ih st₁ (b + 1) st' h l hl with h1 | h2 | h3
      · rcases processLine_body_shape hx with hs | hs | ⟨k, hs⟩
        · rw [hs] at h1
          exact Or.inl h1
        · rw [hs] at h1
          rcases List.mem_append.mp h1 with hm | hm
          · exact Or.inl hm
          · simp at hm
            subst hm
            exact Or.inr (Or.inl (List.mem_cons_self _ _))
        · rw [hs] at h1
          rcases List.mem_append.mp h1 with hm | hm
          · exact Or.inl hm
          · simp at hm
            rcases hm with hm | hm
            · subst hm
              exact Or.inr (Or.inr ⟨k, rfl⟩)
            · subst hm
              exact Or.inr (Or.inl (List.mem_cons_self _ _))
      · exact Or.inr (Or.inl (List.mem_cons_of_mem _ h2))
      · exact Or.inr (Or.inr h3)

/-! Claim C8. -/

/-- C8: the body scan receives exactly the document minus its leading blank
lines (dropped whether or not the first non-blank line is the TOC marker)
and, when the marker is detected, minus the consumed TOC block (the maximal
run of non-blank lines from the marker on); consequently every line of the
rewritten body is a line of that remaining stream or a synthesized anchor
line — the consumed TOC block lines and the leading blank lines are never
carried into the body. -/
theorem c8_body_exclusions :
    ∀ doc st, scanDoc doc = .ok st →
      bodyStream doc =
        (if (process_start doc).1
         then (doc.dropWhile isBlank).dropWhile (fun l => !(isBlank l))
         else doc.dropWhile isBlank) ∧
      ∀ l ∈ st.body, l ∈ bodyStream doc ∨ ∃ k, l = anchorLine k := by
  intro doc st h
  constructor
  · show (let r := process_start doc; if r.1 then process_toc r.2 else r.2) = _
    by_cases hf : (process_start doc).1 = true
    · simp only [hf, if_true, process_toc_eq, process_start_snd]
    · simp only [Bool.not_eq_true] at hf
      simp only [hf, Bool.false_eq_true, if_false, process_start_snd]
  · intro l hl
    unfold scanDoc at h
    have hsub := process_body_body_subset (bodyStream doc) initState _ st h l hl
    simpa [initState] using hsub

/-- C8 witness: the stream characterization applied to a concrete document
with one leading blank line and one header, whose first non-blank line is
not the TOC marker. -/
theorem c8_body_exclusions_witness :
    bodyStream [[], "# T".toList] =
      (if (process_start [[], "# T".toList]).1
       then (([[], "# T".toList] : List (List Char)).dropWhile isBlank).dropWhile
              (fun l => !(isBlank l))
       else ([[], "# T".toList] : List (List Char)).dropWhile isBlank) := by
  exact (c8_body_exclusions [[], "# T".toList]
    ⟨.BODY, [], [⟨0, "T".toList, "t".toList⟩],
     [anchorLine ("t".toList), "# T".toList], [("t".toList, 1)], []⟩ rfl).1

/-! Claim C7 infrastructure. -/

/-- C7 counterexample: on the document `<a id="x"></a>`, ` ```go `, `# H`
the first run warns, appends the fence line, and still produces the entry
`H` with anchor `x`; but its output places the fence line before the
re-synthesized anchor line, so the second run enters the code-block state
first and produces an empty TOC — re-running the tool on its own output
does not regenerate an equivalent TOC. -/
theorem c7_counterexample :
    addToc ["<a id=\"x\"></a>".toList, "```go".toList, "# H".toList] =
      .ok ["# Table of Contents".toList, "1. [H](#x)".toList, [],
           "```go".toList, "<a id=\"x\"></a>".toList, "# H".toList] ∧
    Except.map (fun st => st.tocInfo)
        (scanDoc ["<a id=\"x\"></a>".toList, "```go".toList, "# H".toList]) =
      .ok [⟨0, "H".toList, "x".toList⟩] ∧
    Except.map (fun st => st.tocInfo)
        (scanDoc ["# Table of Contents".toList, "1. [H](#x)".toList, [],
                  "```go".toList, "<a id=\"x\"></a>".toList, "# H".toList]) =
      .ok ([] : List TocEntry) ∧
    ([] : List TocEntry) ≠ [⟨0, "H".toList, "x".toList⟩] := by
  exact ⟨rfl, rfl, rfl, by decide⟩

theorem isBlank_iff_all (l : List Char) :
    isBlank l = true ↔ ∀ c ∈ l, pyIsSpace c = true := by
  unfold isBlank pyStrip
  rw [List.isEmpty_eq_true, List.reverse_eq_nil_iff, List.dropWhile_eq_nil_iff]
  constructor
  · intro h c hc
    have hsplit := List.takeWhile_append_dropWhile (p := pyIsSpace) (l := l)
    rw [← hsplit] at hc
    rcases List.mem_append.mp hc with hm | hm
    · exact List.mem_takeWhile_imp hm
    · exact h c (List.mem_reverse.mpr hm)
  · intro h c hc
    exact h c ((List.dropWhile_sublist _).subset (List.mem_reverse.mp hc))

theorem tocEntryLine_nonblank (e : TocEntry) : isBlank (tocEntryLine e) = false := by
  by_contra hcon
  rw [Bool.not_eq_false] at hcon
  have hmem : '1' ∈ tocEntryLine e := by
    unfold tocEntryLine
    apply List.mem_append.mpr
    left
    apply List.mem_append.mpr
    left
    apply List.mem_append.mpr
    left
    apply List.mem_append.mpr
    left
    apply List.mem_append.mpr
    right
    decide
  have h1 := (isBlank_iff_all _).mp hcon '1' hmem
  exact absurd h1 (by decide)

theorem tocMarker_nonblank : isBlank tocMarker = false := by decide

theorem process_toc_tocLines (T : List TocEntry) (body : List (List Char)) :
    process_toc (tocLines T ++ [] :: body) = [] :: body := by
  have hmap : ∀ es : List TocEntry,
      process_toc (es.map tocEntryLine ++ [] :: body) = [] :: body := by
    intro es
    induction es with
    | nil =>
      simp only [List.map_nil, List.nil_append, process_toc]
      rw [if_pos (by decide)]
    | cons e es ih =>
      simp only [List.map_cons, List.cons_append, process_toc, List.append_eq]
      rw [if_neg (by simp [tocEntryLine_nonblank])]
      simpa using ih
  simp only [tocLines, List.cons_append, process_toc, List.append_eq]
  rw [if_neg (by simp [tocMarker_nonblank])]
  simpa using hmap T

theorem bodyStream_subset {doc : List (List Char)} {l : List Char}
    (h : l ∈ bodyStream doc) : l ∈ doc := by
  have hbs : bodyStream doc =
      if (process_start doc).1 then process_toc ((process_start doc).2)
      else (process_start doc).2 := rfl
  rw [hbs, process_start_snd] at h
  by_cases hf : (process_start doc).1 = true
  · rw [if_pos hf, process_toc_eq] at h
    exact (List.dropWhile_sublist _).subset ((List.dropWhile_sublist _).subset h)
  · rw [if_neg hf] at h
    exact (List.dropWhile_sublist _).subset h

theorem matchKwAt_some {l w : List Char} (h : matchKwAt l = some w) :
    w ≠ [] ∧ ∀ c ∈ w, wordHyphenChar c = true := by
  match l with
  | [] => simp [matchKwAt] at h
  | [c] => simp [matchKwAt] at h
  | c1 :: c2 :: rest =>
    simp only [matchKwAt] at h
    split at h
    · split at h
      · simp at h
      · split at h
        · split at h
          · simp at h
          · rename_i hwne
            split at h
            · obtain rfl := Option.some.inj h
              refine ⟨?_, fun c hc => List.mem_takeWhile_imp hc⟩
              intro hnil
              rw [hnil] at hwne
              simp at hwne
            · simp at h
        · simp at h
    · simp at h

theorem kwSearch_word : ∀ {l w : List Char}, kwSearch l = some w →
    w ≠ [] ∧ ∀ c ∈ w, wordHyphenChar c = true := by
  intro l
  induction l with
  | nil => intro w h; simp [kwSearch] at h
  | cons c rest ih =>
    intro w h
    simp only [kwSearch] at h
    cases hm : matchKwAt (c :: rest) with
    | some w' =>
      rw [hm] at h
      dsimp only at h
      obtain rfl := Option.some.inj h
      exact matchKwAt_some hm
    | none =>
      rw [hm] at h
      dsimp only at h
      exact ih h

theorem kwExtract_anchorLine {k : List Char}
    (hword : ∀ c ∈ k, wordHyphenChar c = true) :
    kwExtract (anchorLine k) = k := by
  by_cases hk0 : k = []
  · subst hk0
    rfl
  · have h1 : List.takeWhile (fun c => c == ' ')
        (' ' :: 'i' :: 'd' :: '=' :: '"' :: (k ++ "\"></a>".toList)) = [' '] := by
      rw [List.takeWhile_cons_of_pos (by decide), List.takeWhile_cons_of_neg (by decide)]
    have h2 : List.dropWhile (fun c => c == ' ')
        (' ' :: 'i' :: 'd' :: '=' :: '"' :: (k ++ "\"></a>".toList)) =
        'i' :: 'd' :: '=' :: '"' :: (k ++ "\"></a>".toList) := by
      rw [List.dropWhile_cons_of_pos (by decide), List.dropWhile_cons_of_neg (by decide)]
    have h3 : ("id=\"".toList).isPrefixOf
        ('i' :: 'd' :: '=' :: '"' :: (k ++ "\"></a>".toList)) = true := by
      simp [List.isPrefixOf]
    have h5 : List.takeWhile wordHyphenChar (k ++ "\"></a>".toList) = k := by
      rw [List.takeWhile_append_of_pos hword]
      have hcl : List.takeWhile wordHyphenChar ("\"></a>".toList) = [] := by decide
      rw [hcl, List.append_nil]
    have h6 : List.dropWhile wordHyphenChar (k ++ "\"></a>".toList) =
        "\"></a>".toList := by
      rw [List.dropWhile_append_of_pos hword]
      decide
    have h7 : ("\"></a>".toList).isPrefixOf ("\"></a>".toList) = true := by decide
    have hke : (List.takeWhile wordHyphenChar (k ++ "\"></a>".toList)).isEmpty = false := by
      rw [h5]
      exact List.isEmpty_eq_false.mpr hk0
    have h4 : List.drop 4 ('i' :: 'd' :: '=' :: '"' :: (k ++ "\"></a>".toList)) =
        k ++ "\"></a>".toList := rfl
    have hma : matchKwAt (anchorLine k) = some k := by
      rw [anchorLine_cons]
      simp only [matchKwAt, h1, h2]
      rw [if_pos (⟨trivial, trivial⟩ : True ∧ True)]
      rw [if_neg (by decide : ¬([' '].isEmpty = true))]
      rw [if_pos h3, h4, h5, h6]
      rw [if_neg (by simp [hk0] : ¬(k.isEmpty = true))]
      rw [if_pos h7]
    have hks : kwSearch (anchorLine k) = some k := by
      rw [anchorLine_cons]
      simp only [kwSearch]
      rw [← anchorLine_cons, hma]
    simp [kwExtract, hks]

theorem digitChar_word (m : Nat) : wordHyphenChar (digitChar m) = true := by
  match m with
  | 0 => decide
  | 1 => decide
  | 2 => decide
  | 3 => decide
  | 4 => decide
  | 5 => decide
  | 6 => decide
  | 7 => decide
  | 8 => decide
  | n + 9 => exact (by decide : wordHyphenChar '9' = true)

theorem natCharsAux_word : ∀ (fuel n : Nat) (acc : List Char),
    (∀ c ∈ acc, wordHyphenChar c = true) →
    ∀ c ∈ natCharsAux fuel n acc, wordHyphenChar c = true := by
  intro fuel
  induction fuel with
  | zero =>
    intro n acc hacc c hc
    simp only [natCharsAux] at hc
    rcases List.mem_cons.mp hc with rfl | hm
    · exact digitChar_word n
    · exact hacc c hm
  | succ fuel ih =>
    intro n acc hacc c hc
    simp only [natCharsAux] at hc
    split at hc
    · rcases List.mem_cons.mp hc with rfl | hm
      · exact digitChar_word n
      · exact hacc c hm
    · refine ih (n / 10) _ ?_ c hc
      intro c' hc'
      rcases List.mem_cons.mp hc' with rfl | hm
      · exact digitChar_word (n % 10)
      · exact hacc c' hm

theorem keepChar_word {c : Char} (h : keepChar c = true) : wordHyphenChar c = true := by
  simp only [keepChar, Bool.or_eq_true] at h
  simp only [wordHyphenChar, Bool.or_eq_true]
  rcases h with h | h
  · exact Or.inl (Or.inl h)
  · exact Or.inl (Or.inr h)

theorem linkOf_word (t : List Char) : ∀ c ∈ linkOf t, wordHyphenChar c = true := by
  intro c hc
  unfold linkOf at hc
  exact keepChar_word (List.mem_filter.mp hc).2

theorem header_to_link_word (d : Dict) (t : List Char) :
    ∀ c ∈ (header_to_link d t).1, wordHyphenChar c = true := by
  intro c hc
  simp only [header_to_link] at hc
  by_cases h0 : dictGet d (linkOf t) = 0
  · rw [if_pos h0] at hc
    dsimp only at hc
    exact linkOf_word t c hc
  · rw [if_neg h0] at hc
    dsimp only at hc
    rcases List.mem_append.mp hc with hm | hm
    · exact linkOf_word t c hm
    · rcases List.mem_cons.mp hm with rfl | hm2
      · decide
      · rw [natChars] at hm2
        exact natCharsAux_word _ _ [] (by simp) c hm2

theorem process_body_body_mono (lines : List (List Char)) :
    ∀ (st : ScanState) (b : Nat) (st' : ScanState),
    process_body st lines b = .ok st' → ∃ d, st'.body = st.body ++ d := by
  induction lines with
  | nil =>
    intro st b st' h
    simp [process_body] at h
    subst h
    exact ⟨[], by simp⟩
  | cons x rest ih =>
    intro st b st' h
    simp only [process_body] at h
    cases hx : processLine st x (b + 1) with
    | error e => rw [hx] at h; simp at h
    | ok st₁ =>
      rw [hx] at h
      dsimp only at h
      obtain ⟨d', hd'⟩ := ih st₁ (b + 1) st' h
      rcases processLine_body_shape hx with hs | hs | ⟨k, hs⟩
      · exact ⟨d', by rw [hd', hs]⟩
      · exact ⟨[x] ++ d', by rw [hd', hs, List.append_assoc]⟩
      · exact ⟨[anchorLine k, x] ++ d', by rw [hd', hs, List.append_assoc]⟩

/-- Relation between the first run's scanner state and the second run's
state at the matching point of the rewritten body: while the first run sits
in `BODY` so does the second; while the first run holds a pending anchor the
second is in `BODY` (the dropped first anchor line) or `FOUND_LINK` (a
replacement anchor line was appended and re-read); the code-block state is
excluded by the fence-free hypothesis. -/
def stateRel : BodyState → BodyState → Prop
  | .BODY, .BODY => True
  | .FOUND_LINK, .BODY => True
  | .FOUND_LINK, .FOUND_LINK => True
  | _, _ => False

theorem process_body_cons_ok {st : ScanState} {x : List Char} {b : Nat}
    {st₁ : ScanState} (h : processLine st x (b + 1) = .ok st₁)
    (rest : List (List Char)) :
    process_body st (x :: rest) b = process_body st₁ rest (b + 1) := by
  simp only [process_body, h]

theorem run2_plain_block (st2 : ScanState) (d' : List (List Char)) (b2 : Nat)
    (x : List Char)
    (hst2 : st2.bodyState = .BODY ∨ st2.bodyState = .FOUND_LINK)
    (ha : sw "<a" x = false) (hh : sw "#" x = false) (hfx : sw "```" x = false) :
    ∃ st2m, process_body st2 (x :: d') b2 = process_body st2m d' (b2 + 1) ∧
      st2m.tocInfo = st2.tocInfo ∧ st2m.bodyState = st2.bodyState := by
  obtain ⟨bs2, ll2, ti2, bd2, hd2, dg2⟩ := st2
  rcases hst2 with h2 | h2 <;> (simp only at h2; subst h2)
  · refine ⟨⟨.BODY, ll2, ti2, bd2 ++ [x], hd2, dg2⟩, ?_, rfl, rfl⟩
    exact process_body_cons_ok (by simp [processLine, ha, hh, hfx]) d'
  · by_cases hb : isBlank x = true
    · refine ⟨⟨.FOUND_LINK, ll2, ti2, bd2 ++ [x], hd2, dg2⟩, ?_, rfl, rfl⟩
      exact process_body_cons_ok (by simp [processLine, ha, hh, hb]) d'
    · rw [Bool.not_eq_true] at hb
      refine ⟨⟨.FOUND_LINK, ll2, ti2, bd2 ++ [x], hd2, dg2 ++ [betweenDiag]⟩, ?_, rfl, rfl⟩
      exact process_body_cons_ok (by simp [processLine, ha, hh, hb]) d'

theorem run2_anchor_block (st2 : ScanState) (d' : List (List Char)) (b2 : Nat)
    (x : List Char)
    (hst2 : st2.bodyState = .BODY ∨ st2.bodyState = .FOUND_LINK)
    (ha : sw "<a" x = true) :
    ∃ st2m, process_body st2 (x :: d') b2 = process_body st2m d' (b2 + 1) ∧
      st2m.tocInfo = st2.tocInfo ∧ st2m.bodyState = .FOUND_LINK := by
  obtain ⟨bs2, ll2, ti2, bd2, hd2, dg2⟩ := st2
  rcases hst2 with h2 | h2 <;> (simp only at h2; subst h2)
  · refine ⟨⟨.FOUND_LINK, x, ti2, bd2, hd2, dg2⟩, ?_, rfl, rfl⟩
    exact process_body_cons_ok (by simp [processLine, ha]) d'
  · refine ⟨⟨.FOUND_LINK, x, ti2, bd2 ++ [x], hd2, dg2⟩, ?_, rfl, rfl⟩
    exact process_body_cons_ok (by simp [processLine, ha]) d'

theorem run2_header_block (st2 : ScanState) (d' : List (List Char)) (b2 : Nat)
    (x k t : List Char) (g1 : Nat)
    (hst2 : st2.bodyState = .BODY ∨ st2.bodyState = .FOUND_LINK)
    (hword : ∀ c ∈ k, wordHyphenChar c = true)
    (hh : sw "#" x = true) (hhs : headSearch x = some (g1, t)) :
    ∃ st2m, process_body st2 (anchorLine k :: x :: d') b2 =
        process_body st2m d' (b2 + 2) ∧
      st2m.tocInfo = st2.tocInfo ++ [⟨g1 - 1, t, k⟩] ∧
      st2m.bodyState = .BODY := by
  obtain ⟨bs2, ll2, ti2, bd2, hd2, dg2⟩ := st2
  have hkx : kwExtract (anchorLine k) = k := kwExtract_anchorLine hword
  have hane : (anchorLine k).isEmpty = false :=
    List.isEmpty_eq_false.mpr (anchorLine_ne_nil k)
  rcases hst2 with h2 | h2 <;> (simp only at h2; subst h2)
  · refine ⟨⟨.BODY, anchorLine k, ti2 ++ [⟨g1 - 1, t, k⟩],
        bd2 ++ [anchorLine k, x], hd2, dg2⟩, ?_, rfl, rfl⟩
    have hs1 : processLine ⟨.BODY, ll2, ti2, bd2, hd2, dg2⟩ (anchorLine k) (b2 + 1) =
        .ok ⟨.FOUND_LINK, anchorLine k, ti2, bd2, hd2, dg2⟩ := by
      simp [processLine, sw_anchor_anchorLine]
    have hs2 : processLine ⟨.FOUND_LINK, anchorLine k, ti2, bd2, hd2, dg2⟩ x (b2 + 1 + 1) =
        .ok ⟨.BODY, anchorLine k, ti2 ++ [⟨g1 - 1, t, k⟩],
             bd2 ++ [anchorLine k, x], hd2, dg2⟩ := by
      simp [processLine, hh, sw_hash_not_anchor hh, make_toc_entry, hhs, hane, hkx]
    rw [process_body_cons_ok hs1, process_body_cons_ok hs2]
  · refine ⟨⟨.BODY, anchorLine k, ti2 ++ [⟨g1 - 1, t, k⟩],
        (bd2 ++ [anchorLine k]) ++ [anchorLine k, x], hd2, dg2⟩, ?_, rfl, rfl⟩
    have hs1 : processLine ⟨.FOUND_LINK, ll2, ti2, bd2, hd2, dg2⟩ (anchorLine k) (b2 + 1) =
        .ok ⟨.FOUND_LINK, anchorLine k, ti2, bd2 ++ [anchorLine k], hd2, dg2⟩ := by
      simp [processLine, sw_anchor_anchorLine]
    have hs2 : processLine ⟨.FOUND_LINK, anchorLine k, ti2, bd2 ++ [anchorLine k],
        hd2, dg2⟩ x (b2 + 1 + 1) =
        .ok ⟨.BODY, anchorLine k, ti2 ++ [⟨g1 - 1, t, k⟩],
             (bd2 ++ [anchorLine k]) ++ [anchorLine k, x], hd2, dg2⟩ := by
      simp [processLine, hh, sw_hash_not_anchor hh, make_toc_entry, hhs, hane, hkx]
    rw [process_body_cons_ok hs1, process_body_cons_ok hs2]

theorem appendCancelLeft {α : Type} (a : List α) {b c : List α}
    (h : a ++ b = a ++ c) : b = c := List.append_cancel_left h

theorem c7_sim (ls : List (List Char)) :
    ∀ (st1 : ScanState) (b1 : Nat) (st1' : ScanState) (st2 : ScanState) (b2 : Nat)
      (d : List (List Char)),
      process_body st1 ls b1 = .ok st1' →
      (∀ l ∈ ls, sw "```" l = false) →
      stateRel st1.bodyState st2.bodyState →
      st2.tocInfo = st1.tocInfo →
      st1'.body = st1.body ++ d →
      ∃ st2', process_body st2 d b2 = .ok st2' ∧ st2'.tocInfo = st1'.tocInfo ∧
        stateRel st1'.bodyState st2'.bodyState := by
  induction ls with
  | nil =>
    intro st1 b1 st1' st2 b2 d h1 hf hrel htoc hd
    simp [process_body] at h1
    subst h1
    obtain rfl : d = [] := List.self_eq_append_right.mp hd
    exact ⟨st2, by simp [process_body], htoc, hrel⟩
  | cons x rest ih =>
    intro st1 b1 st1' st2 b2 d h1 hf hrel htoc hd
    have hfx : sw "```" x = false := hf x (List.mem_cons_self _ _)
    have hfr : ∀ l ∈ rest, sw "```" l = false :=
      fun l hl => hf l (List.mem_cons_of_mem _ hl)
    simp only [process_body] at h1
    cases hx : processLine st1 x (b1 + 1) with
    | error e => rw [hx] at h1; simp at h1
    | ok st1m =>
      rw [hx] at h1
      dsimp only at h1
      obtain ⟨d', hd'⟩ := process_body_body_mono rest st1m (b1 + 1) st1' h1
      obtain ⟨bs1, ll1, ti1, bd1, hd1, dg1⟩ := st1
      simp only at htoc hrel hd
      cases bs1 with
      | IN_CODE_BLOCK => exact hrel.elim
      | BODY =>
        have hbs2 : st2.bodyState = .BODY := by
          cases h2 : st2.bodyState
          · rfl
          · rw [h2] at hrel; exact hrel.elim
          · rw [h2] at hrel; exact hrel.elim
        by_cases ha : sw "<a" x = true
        · -- the anchor line is withheld from the body; the second run consumes nothing
          have hx' : processLine ⟨.BODY, ll1, ti1, bd1, hd1, dg1⟩ x (b1 + 1) =
              .ok ⟨.FOUND_LINK, x, ti1, bd1, hd1, dg1⟩ := by
            simp [processLine, ha]
          rw [hx'] at hx
          obtain rfl := Except.ok.inj hx
          obtain rfl : d = d' := by
            apply appendCancelLeft bd1
            rw [← hd]
            exact hd'
          exact ih ⟨.FOUND_LINK, x, ti1, bd1, hd1, dg1⟩ (b1 + 1) st1' st2 b2 d h1 hfr
            (by rw [hbs2]; trivial) htoc hd'
        · by_cases hh : sw "#" x = true
          · cases hhs : headSearch x with
            | none =>
              rw [show processLine ⟨.BODY, ll1, ti1, bd1, hd1, dg1⟩ x (b1 + 1) =
                  .error (b1 + 1) from by
                    simp [processLine, ha, hh, make_toc_entry, hhs]] at hx
              exact absurd hx (by simp)
            | some gt =>
              obtain ⟨g1, t⟩ := gt
              have hx' : processLine ⟨.BODY, ll1, ti1, bd1, hd1, dg1⟩ x (b1 + 1) =
                  .ok ⟨.BODY, ll1, ti1 ++ [⟨g1 - 1, t, (header_to_link hd1 t).1⟩],
                       bd1 ++ [anchorLine (header_to_link hd1 t).1, x],
                       (header_to_link hd1 t).2, dg1⟩ := by
                simp [processLine, ha, hh, make_toc_entry, hhs]
              rw [hx'] at hx
              obtain rfl := Except.ok.inj hx
              obtain rfl : d = [anchorLine (header_to_link hd1 t).1, x] ++ d' := by
                apply appendCancelLeft bd1
                rw [← hd, hd']
                simp [List.append_assoc]
              obtain ⟨st2m, hblock, htoc2, hbs2m⟩ :=
                run2_header_block st2 d' b2 x (header_to_link hd1 t).1 t g1
                  (Or.inl hbs2) (header_to_link_word hd1 t) hh hhs
              obtain ⟨st2', hrun, htocf, hrelf⟩ :=
                ih ⟨.BODY, ll1, ti1 ++ [⟨g1 - 1, t, (header_to_link hd1 t).1⟩],
                    bd1 ++ [anchorLine (header_to_link hd1 t).1, x],
                    (header_to_link hd1 t).2, dg1⟩ (b1 + 1) st1' st2m (b2 + 2) d' h1 hfr
                  (by rw [hbs2m]; trivial)
                  (by rw [htoc2, htoc]) hd'
              refine ⟨st2', ?_, htocf, hrelf⟩
              show process_body st2 (anchorLine (header_to_link hd1 t).1 :: x :: d') b2 =
                .ok st2'
              rw [hblock]
              exact hrun
          · rw [Bool.not_eq_true] at ha hh
            have hx' : processLine ⟨.BODY, ll1, ti1, bd1, hd1, dg1⟩ x (b1 + 1) =
                .ok ⟨.BODY, ll1, ti1, bd1 ++ [x], hd1, dg1⟩ := by
              simp [processLine, ha, hh, hfx]
            rw [hx'] at hx
            obtain rfl := Except.ok.inj hx
            obtain rfl : d = [x] ++ d' := by
              apply appendCancelLeft bd1
              rw [← hd, hd']
              simp [List.append_assoc]
            obtain ⟨st2m, hblock, htoc2, hbs2m⟩ :=
              run2_plain_block st2 d' b2 x (Or.inl hbs2) ha hh hfx
            obtain ⟨st2', hrun, htocf, hrelf⟩ :=
              ih ⟨.BODY, ll1, ti1, bd1 ++ [x], hd1, dg1⟩ (b1 + 1) st1' st2m (b2 + 1) d'
                h1 hfr (by rw [hbs2m, hbs2]; trivial) (by rw [htoc2, htoc]) hd'
            refine ⟨st2', ?_, htocf, hrelf⟩
            show process_body st2 (x :: d') b2 = .ok st2'
            rw [hblock]
            exact hrun
      | FOUND_LINK =>
        have hbs2 : st2.bodyState = .BODY ∨ st2.bodyState = .FOUND_LINK := by
          cases h2 : st2.bodyState
          · exact Or.inl rfl
          · exact Or.inr rfl
          · rw [h2] at hrel; exact hrel.elim
        by_cases ha : sw "<a" x = true
        · -- a replacement anchor line: appended to the body and re-buffered
          have hx' : processLine ⟨.FOUND_LINK, ll1, ti1, bd1, hd1, dg1⟩ x (b1 + 1) =
              .ok ⟨.FOUND_LINK, x, ti1, bd1 ++ [x], hd1, dg1⟩ := by
            simp [processLine, ha]
          rw [hx'] at hx
          obtain rfl := Except.ok.inj hx
          obtain rfl : d = [x] ++ d' := by
            apply appendCancelLeft bd1
            rw [← hd, hd']
            simp [List.append_assoc]
          obtain ⟨st2m, hblock, htoc2, hbs2m⟩ := run2_anchor_block st2 d' b2 x hbs2 ha
          obtain ⟨st2', hrun, htocf, hrelf⟩ :=
            ih ⟨.FOUND_LINK, x, ti1, bd1 ++ [x], hd1, dg1⟩ (b1 + 1) st1' st2m (b2 + 1) d'
              h1 hfr (by rw [hbs2m]; trivial) (by rw [htoc2, htoc]) hd'
          refine ⟨st2', ?_, htocf, hrelf⟩
          show process_body st2 (x :: d') b2 = .ok st2'
          rw [hblock]
          exact hrun
        · by_cases hh : sw "#" x = true
          · cases hhs : headSearch x with
            | none =>
              rw [show processLine ⟨.FOUND_LINK, ll1, ti1, bd1, hd1, dg1⟩ x (b1 + 1) =
                  .error (b1 + 1) from by
                    simp [processLine, ha, hh, make_toc_entry, hhs]] at hx
              exact absurd hx (by simp)
            | some gt =>
              obtain ⟨g1, t⟩ := gt
              by_cases hll : ll1.isEmpty = true
              · -- empty pending line: the source falls back to the derived link
                obtain rfl : ll1 = [] := List.isEmpty_eq_true.mp hll
                have hx' : processLine ⟨.FOUND_LINK, [], ti1, bd1, hd1, dg1⟩ x (b1 + 1) =
                    .ok ⟨.BODY, [], ti1 ++ [⟨g1 - 1, t, (header_to_link hd1 t).1⟩],
                         bd1 ++ [anchorLine (header_to_link hd1 t).1, x],
                         (header_to_link hd1 t).2, dg1⟩ := by
                  simp [processLine, ha, hh, make_toc_entry, hhs]
                rw [hx'] at hx
                obtain rfl := Except.ok.inj hx
                obtain rfl : d = [anchorLine (header_to_link hd1 t).1, x] ++ d' := by
                  apply appendCancelLeft bd1
                  rw [← hd, hd']
                  simp [List.append_assoc]
                obtain ⟨st2m, hblock, htoc2, hbs2m⟩ :=
                  run2_header_block st2 d' b2 x (header_to_link hd1 t).1 t g1
                    hbs2 (header_to_link_word hd1 t) hh hhs
                obtain ⟨st2', hrun, htocf, hrelf⟩ :=
                  ih ⟨.BODY, [], ti1 ++ [⟨g1 - 1, t, (header_to_link hd1 t).1⟩],
                      bd1 ++ [anchorLine (header_to_link hd1 t).1, x],
                      (header_to_link hd1 t).2, dg1⟩ (b1 + 1) st1' st2m (b2 + 2) d' h1 hfr
                    (by rw [hbs2m]; trivial) (by rw [htoc2, htoc]) hd'
                refine ⟨st2', ?_, htocf, hrelf⟩
                show process_body st2 (anchorLine (header_to_link hd1 t).1 :: x :: d') b2 =
                  .ok st2'
                rw [hblock]
                exact hrun
              · -- explicit pending anchor: its captured identifier becomes the link
                rw [Bool.not_eq_true] at hll
                have hkw : ∀ c ∈ kwExtract ll1, wordHyphenChar c = true := by
                  unfold kwExtract
                  cases hks : kwSearch ll1 with
                  | none => simp
                  | some w => simpa using (kwSearch_word hks).2
                have hx' : processLine ⟨.FOUND_LINK, ll1, ti1, bd1, hd1, dg1⟩ x (b1 + 1) =
                    .ok ⟨.BODY, ll1, ti1 ++ [⟨g1 - 1, t, kwExtract ll1⟩],
                         bd1 ++ [anchorLine (kwExtract ll1), x], hd1, dg1⟩ := by
                  simp [processLine, ha, hh, make_toc_entry, hhs, hll]
                rw [hx'] at hx
                obtain rfl := Except.ok.inj hx
                obtain rfl : d = [anchorLine (kwExtract ll1), x] ++ d' := by
                  apply appendCancelLeft bd1
                  rw [← hd, hd']
                  simp [List.append_assoc]
                obtain ⟨st2m, hblock, htoc2, hbs2m⟩ :=
                  run2_header_block st2 d' b2 x (kwExtract ll1) t g1 hbs2 hkw hh hhs
                obtain ⟨st2', hrun, htocf, hrelf⟩ :=
                  ih ⟨.BODY, ll1, ti1 ++ [⟨g1 - 1, t, kwExtract ll1⟩],
                      bd1 ++ [anchorLine (kwExtract ll1), x], hd1, dg1⟩ (b1 + 1) st1'
                    st2m (b2 + 2) d' h1 hfr (by rw [hbs2m]; trivial)
                    (by rw [htoc2, htoc]) hd'
                refine ⟨st2', ?_, htocf, hrelf⟩
                show process_body st2 (anchorLine (kwExtract ll1) :: x :: d') b2 = .ok st2'
                rw [hblock]
                exact hrun
          · -- neither anchor nor header: blank or stray content, state unchanged
            rw [Bool.not_eq_true] at ha hh
            by_cases hb : isBlank x = true
            · have hx' : processLine ⟨.FOUND_LINK, ll1, ti1, bd1, hd1, dg1⟩ x (b1 + 1) =
                  .ok ⟨.FOUND_LINK, ll1, ti1, bd1 ++ [x], hd1, dg1⟩ := by
                simp [processLine, ha, hh, hb]
              rw [hx'] at hx
              obtain rfl := Except.ok.inj hx
              obtain rfl : d = [x] ++ d' := by
                apply appendCancelLeft bd1
                rw [← hd, hd']
                simp [List.append_assoc]
              obtain ⟨st2m, hblock, htoc2, hbs2m⟩ :=
                run2_plain_block st2 d' b2 x hbs2 ha hh hfx
              obtain ⟨st2', hrun, htocf, hrelf⟩ :=
                ih ⟨.FOUND_LINK, ll1, ti1, bd1 ++ [x], hd1, dg1⟩ (b1 + 1) st1' st2m
                  (b2 + 1) d' h1 hfr
                  (by rw [hbs2m]; rcases hbs2 with h2 | h2 <;> rw [h2] <;> trivial)
                  (by rw [htoc2, htoc]) hd'
              refine ⟨st2', ?_, htocf, hrelf⟩
              show process_body st2 (x :: d') b2 = .ok st2'
              rw [hblock]
              exact hrun
            · rw [Bool.not_eq_true] at hb
              have hx' : processLine ⟨.FOUND_LINK, ll1, ti1, bd1, hd1, dg1⟩ x (b1 + 1) =
                  .ok ⟨.FOUND_LINK, ll1, ti1, bd1 ++ [x], hd1, dg1 ++ [betweenDiag]⟩ := by
                simp [processLine, ha, hh, hb]
              rw [hx'] at hx
              obtain rfl := Except.ok.inj hx
              obtain rfl : d = [x] ++ d' := by
                apply appendCancelLeft bd1
                rw [← hd, hd']
                simp [List.append_assoc]
              obtain ⟨st2m, hblock, htoc2, hbs2m⟩ :=
                run2_plain_block st2 d' b2 x hbs2 ha hh hfx
              obtain ⟨st2', hrun, htocf, hrelf⟩ :=
                ih ⟨.FOUND_LINK, ll1, ti1, bd1 ++ [x], hd1, dg1 ++ [betweenDiag]⟩
                  (b1 + 1) st1' st2m (b2 + 1) d' h1 hfr
                  (by rw [hbs2m]; rcases hbs2 with h2 | h2 <;> rw [h2] <;> trivial)
                  (by rw [htoc2, htoc]) hd'
              refine ⟨st2', ?_, htocf, hrelf⟩
              show process_body st2 (x :: d') b2 = .ok st2'
              rw [hblock]
              exact hrun

/-! Claim C7. -/

/-- C7 amended: feeding the generated file back in always detects the
existing TOC marker (it is the first line of the output) and consumes the
old TOC block instead of duplicating it — the second run's body scan starts
right after the old block, at the separator blank line followed by the
rewritten body.  The regenerated TOC equals the first run's TOC for
documents in which no line begins with three backticks; a fence line
between a pending anchor tag and its header can reorder in the output (see
the counterexample), which is what this hypothesis excludes. -/
theorem c7_amended_idempotence :
    ∀ doc st, scanDoc doc = .ok st →
      addToc doc = .ok (tocLines st.tocInfo ++ [[]] ++ st.body) ∧
      (process_start (tocLines st.tocInfo ++ [[]] ++ st.body)).1 = true ∧
      process_toc ((process_start (tocLines st.tocInfo ++ [[]] ++ st.body)).2) =
        [] :: st.body ∧
      ((∀ l ∈ doc, sw "```" l = false) →
        ∃ st₂, scanDoc (tocLines st.tocInfo ++ [[]] ++ st.body) = .ok st₂ ∧
          st₂.tocInfo = st.tocInfo) := by
  intro doc st h
  have hout : tocLines st.tocInfo ++ [[]] ++ st.body =
      tocMarker :: (st.tocInfo.map tocEntryLine ++ [] :: st.body) := by
    simp [tocLines]
  have hps : process_start (tocMarker :: (st.tocInfo.map tocEntryLine ++ [] :: st.body)) =
      (true, tocMarker :: (st.tocInfo.map tocEntryLine ++ [] :: st.body)) := by
    simp only [process_start]
    rw [if_neg (by simp [tocMarker_nonblank])]
    simp [show (pyStrip tocMarker == tocMarker) = true from by decide]
  have hlt : tocLines st.tocInfo ++ [] :: st.body =
      tocMarker :: (st.tocInfo.map tocEntryLine ++ [] :: st.body) := by
    simp [tocLines]
  have hbs : bodyStream (tocLines st.tocInfo ++ [[]] ++ st.body) = [] :: st.body := by
    rw [show bodyStream (tocLines st.tocInfo ++ [[]] ++ st.body) =
        if (process_start (tocLines st.tocInfo ++ [[]] ++ st.body)).1
        then process_toc ((process_start (tocLines st.tocInfo ++ [[]] ++ st.body)).2)
        else (process_start (tocLines st.tocInfo ++ [[]] ++ st.body)).2 from rfl]
    rw [hout, hps]
    dsimp only
    rw [← hlt]
    exact process_toc_tocLines st.tocInfo st.body
  refine ⟨?_, ?_, ?_, ?_⟩
  · simp [addToc, h]
  · rw [hout, hps]
  · rw [hout, hps]
    dsimp only
    rw [← hlt]
    exact process_toc_tocLines st.tocInfo st.body
  · intro hff
    unfold scanDoc at h
    have hstB : ∀ n : Nat, processLine initState [] n =
        .ok ⟨.BODY, [], [], [[]], [], []⟩ := fun n => rfl
    obtain ⟨st2', hrun, htoc2, hrel2⟩ :=
      c7_sim (bodyStream doc) initState (doc.length - (bodyStream doc).length) st
        ⟨.BODY, [], [], [[]], [], []⟩
        ((tocLines st.tocInfo ++ [[]] ++ st.body).length - ([] :: st.body).length + 1)
        st.body h (fun l hl => hff l (bodyStream_subset hl)) trivial rfl
        (List.nil_append st.body).symm
    refine ⟨st2', ?_, htoc2⟩
    unfold scanDoc
    rw [hbs, process_body_cons_ok (hstB _) st.body]
    exact hrun

/-- C7 witness: the amended statement applied to the one-header document
`# A`; re-scanning the produced output detects the marker, consumes the old
block, and regenerates the same single-entry TOC. -/
theorem c7_amended_idempotence_witness :
    ∃ st₂, scanDoc (tocLines [⟨0, "A".toList, "a".toList⟩] ++ [[]] ++
        [anchorLine ("a".toList), "# A".toList]) = .ok st₂ ∧
      st₂.tocInfo = [⟨0, "A".toList, "a".toList⟩] := by
  exact (c7_amended_idempotence ["# A".toList]
    ⟨.BODY, [], [⟨0, "A".toList, "a".toList⟩],
     [anchorLine ("a".toList), "# A".toList], [("a".toList, 1)], []⟩ rfl).2.2.2
    (by decide)
